import Mathlib

/-!
Verification of the block core of a proof-of-work ledger (`src/block.rs`):
the `set_difficulty` threshold function, the `Header`/`Content`/`Block`
data model, and their operations, shallowly embedded in Lean.

Bytes are modelled as `Nat` values below 256, 32-byte hashes as
`List Nat` of length 32, `u32`/`u128` as `Nat` with explicit `% 2 ^ 32`
where overflow matters.  The external SHA-256 primitive and the external
Merkle-tree collaborator are abstract function parameters, as the spec
treats them as out-of-scope collaborators.
-/

namespace BlockCore

/-- Big-endian denotation of a byte list: the Nat it encodes. -/
def beVal (bs : List Nat) : Nat :=
  bs.foldl (fun acc b => acc * 256 + b) 0

/-- `toBeBytes w n` is the fixed-width `w`-byte big-endian encoding of `n`
(the semantics of Rust's `uN::to_be_bytes`). -/
def toBeBytes : Nat → Nat → List Nat
  | 0, _ => []
  | w + 1, n => n / 256 ^ w % 256 :: toBeBytes w n

/-- Rust `u32::to_be_bytes`. -/
def u32_to_be_bytes (n : Nat) : List Nat := toBeBytes 4 n

/-- Rust `u128::to_be_bytes`. -/
def u128_to_be_bytes (n : Nat) : List Nat := toBeBytes 16 n

/-- Inner loop of `set_difficulty` (`for _j in 0..8`): state is the byte
being built and the running bit counter `cnt`; each of the `fuel`
iterations right-shifts the byte once when `cnt < dif_val`, then
increments `cnt`.  `>>` on `u8` is `/ 2` on the byte value. -/
def shiftLoop (dif_val : Nat) : Nat → Nat → Nat → Nat × Nat
  | b, _cnt, 0 => (b, _cnt)
  | b, cnt, j + 1 => shiftLoop dif_val (if cnt < dif_val then b / 2 else b) (cnt + 1) j

/-- Outer loop of `set_difficulty` (`for i in 0..32`): each of the `rem`
remaining bytes starts at `u8::MAX = 255` and is shifted by the inner
loop, which also advances the bit counter by 8. -/
def buildLoop (dif_val : Nat) : Nat → Nat → List Nat
  | _cnt, 0 => []
  | cnt, i + 1 =>
      (shiftLoop dif_val 255 cnt 8).1 :: buildLoop dif_val (shiftLoop dif_val 255 cnt 8).2 i

/-- `fn set_difficulty(dif_val: usize) -> [u8; 32]` from `src/block.rs`:
array of 32 bytes initialised to `0xFF`, with a running bit counter from
0 to 255; whenever the counter is below `dif_val` the current byte is
right-shifted one more position. -/
def set_difficulty (dif_val : Nat) : List Nat :=
  buildLoop dif_val 0 32

/-- The byte-wise closed form of the spec: byte `i` is
`0xFF >> clamp(d - 8*i, 0, 8)` (Nat subtraction already truncates at 0). -/
def closedFormThreshold (d : Nat) : List Nat :=
  (List.range 32).map (fun i => 255 >>> min (d - 8 * i) 8)

theorem shiftLoop_eq (d : Nat) :
    ∀ fuel b cnt, shiftLoop d b cnt fuel = (b / 2 ^ min (d - cnt) fuel, cnt + fuel) := by
  intro fuel
  induction fuel with
  | zero =>
      intro b cnt
      simp [shiftLoop]
  | succ n ih =>
      intro b cnt
      have h1 : shiftLoop d b cnt (n + 1)
          = shiftLoop d (if cnt < d then b / 2 else b) (cnt + 1) n := rfl
      rw [h1, ih]
      by_cases hc : cnt < d
      · rw [if_pos hc]
        refine Prod.ext ?_ (by omega)
        have hm : min (d - cnt) (n + 1) = min (d - (cnt + 1)) n + 1 := by omega
        show b / 2 / 2 ^ min (d - (cnt + 1)) n = b / 2 ^ min (d - cnt) (n + 1)
        rw [hm, Nat.div_div_eq_div_mul, pow_succ, Nat.mul_comm]
      · rw [if_neg hc]
        refine Prod.ext ?_ (by omega)
        have hm : min (d - (cnt + 1)) n = min (d - cnt) (n + 1) := by omega
        show b / 2 ^ min (d - (cnt + 1)) n = b / 2 ^ min (d - cnt) (n + 1)
        rw [hm]

theorem buildLoop_eq (d : Nat) :
    ∀ rem cnt, buildLoop d cnt rem
      = (List.range rem).map (fun j => 255 / 2 ^ min (d - (cnt + 8 * j)) 8) := by
  intro rem
  induction rem with
  | zero =>
      intro cnt
      simp [buildLoop]
  | succ n ih =>
      intro cnt
      have h1 : buildLoop d cnt (n + 1)
          = (shiftLoop d 255 cnt 8).1 :: buildLoop d (shiftLoop d 255 cnt 8).2 n := rfl
      rw [h1, shiftLoop_eq, ih, List.range_succ_eq_map]
      simp only [List.map_cons, List.map_map]
      refine congrArg₂ List.cons (by norm_num) ?_
      refine List.map_congr_left ?_
      intro j _
      show 255 / 2 ^ min (d - (cnt + 8 + 8 * j)) 8
      = 255 / 2 ^ min (d - (cnt + 8 * (j + 1))) 8
  -- the two subtraction arguments are equal
      have harg : d - (cnt + 8 + 8 * j) = d - (cnt + 8 * (j + 1)) := by omega
      rw [harg]

/-- Closed-form characterisation of the source loop, for every input. -/
theorem set_difficulty_bytes (d : Nat) :
    set_difficulty d = (List.range 32).map (fun i => 255 / 2 ^ min (d - 8 * i) 8) := by
  rw [set_difficulty, buildLoop_eq]
  refine List.map_congr_left ?_
  intro i _
  have harg : d - (0 + 8 * i) = d - 8 * i := by omega
  rw [harg]

theorem set_difficulty_eq_closedForm (d : Nat) :
    set_difficulty d = closedFormThreshold d := by
  rw [set_difficulty_bytes, closedFormThreshold]
  refine List.map_congr_left ?_
  intro i _
  rw [Nat.shiftRight_eq_div_pow]

/-- `struct Header` from `src/block.rs`: `parent: H256`, `nonce: u32`,
`difficulty: H256`, `timestamp: u128`, `merkle_root: H256`. -/
structure Header where
  parent : List Nat
  nonce : Nat
  difficulty : List Nat
  timestamp : Nat
  merkle_root : List Nat

/-- `struct Content`: an ordered sequence of transactions.  The
transaction type is external and opaque, hence a type parameter. -/
structure Content (Tx : Type) where
  trans : List Tx

/-- `struct Block`: cached header hash, distance from genesis, header and
content. -/
structure Block (Tx : Type) where
  hash : List Nat
  index : Nat
  header : Header
  content : Content Tx

/-- `Header::new`. -/
def Header.new (parent : List Nat) (nonce timestamp : Nat)
    (difficulty merkle_root : List Nat) : Header :=
  { parent := parent, nonce := nonce, difficulty := difficulty,
    timestamp := timestamp, merkle_root := merkle_root }

/-- `Header::hash`: SHA-256 over the sequential `ctx.update` calls, i.e.
the digest of the concatenation of `parent`, `nonce.to_be_bytes()`,
`difficulty`, `timestamp.to_be_bytes()`, `merkle_root`.  The SHA-256
primitive is the external collaborator `sha256`. -/
def Header.hash (sha256 : List Nat → List Nat) (h : Header) : List Nat :=
  sha256 (h.parent ++ u32_to_be_bytes h.nonce ++ h.difficulty
    ++ u128_to_be_bytes h.timestamp ++ h.merkle_root)

/-- `Header::change_nonce`: `self.nonce = self.nonce.overflowing_add(1).0`,
i.e. increment modulo `2 ^ 32`. -/
def Header.change_nonce (h : Header) : Header :=
  { h with nonce := (h.nonce + 1) % 2 ^ 32 }

/-- `Content::new`. -/
def Content.new (Tx : Type) : Content Tx :=
  { trans := [] }

/-- `Content::new_with_trans`: construct from a clone of the given
vector. -/
def Content.new_with_trans {Tx : Type} (trans : List Tx) : Content Tx :=
  { trans := trans }

/-- `Content::add_tran`: `self.trans.push(tran)`. -/
def Content.add_tran {Tx : Type} (c : Content Tx) (tran : Tx) : Content Tx :=
  { trans := c.trans ++ [tran] }

/-- `Content::merkle_root`: delegates to the external Merkle-tree
collaborator `mkroot` over the current ordered sequence. -/
def Content.merkle_root {Tx : Type} (mkroot : List Tx → List Nat)
    (c : Content Tx) : List Nat :=
  mkroot c.trans

/-- `static DIFFICULTY: usize = 12`. -/
def DIFFICULTY : Nat := 12

/-- `Block::genesis`: all-zero hash, parent and merkle root, zero nonce
and timestamp, difficulty from `set_difficulty(DIFFICULTY)`, empty
content, `index = 0`. -/
def Block.genesis (Tx : Type) : Block Tx :=
  { hash := List.replicate 32 0
  , index := 0
  , header :=
      { parent := List.replicate 32 0
      , nonce := 0
      , difficulty := set_difficulty DIFFICULTY
      , timestamp := 0
      , merkle_root := List.replicate 32 0 }
  , content := { trans := [] } }

/-- `Block::new(header, content)`: caches `header.hash()` and sets
`index = 0`. -/
def Block.new {Tx : Type} (sha256 : List Nat → List Nat)
    (header : Header) (content : Content Tx) : Block Tx :=
  { hash := header.hash sha256, index := 0, header := header, content := content }

/-- `Block::get_hash`: returns the cached `hash` field. -/
def Block.get_hash {Tx : Type} (b : Block Tx) : List Nat :=
  b.hash

theorem toBeBytes_length (w n : Nat) : (toBeBytes w n).length = w := by
  induction w generalizing n with
  | zero => rfl
  | succ w ih => simp [toBeBytes, ih]

theorem toBeBytes_lt (w n : Nat) : ∀ x ∈ toBeBytes w n, x < 256 := by
  induction w generalizing n with
  | zero => intro x hx; simp [toBeBytes] at hx
  | succ w ih =>
      intro x hx
      rw [toBeBytes, List.mem_cons] at hx
      rcases hx with hx | hx
      · rw [hx]; exact Nat.mod_lt _ (by norm_num)
      · exact ih n x hx

theorem beVal_foldl (l : List Nat) :
    ∀ acc, l.foldl (fun a b => a * 256 + b) acc = acc * 256 ^ l.length + beVal l := by
  induction l with
  | nil => intro acc; simp [beVal]
  | cons b l ih =>
      intro acc
      have hb : beVal (b :: l) = b * 256 ^ l.length + beVal l := by
        show (b :: l).foldl (fun a b => a * 256 + b) 0 = b * 256 ^ l.length + beVal l
        rw [List.foldl_cons, ih]
        ring_nf
      rw [List.foldl_cons, ih, hb, List.length_cons]
      ring

theorem beVal_cons (b : Nat) (l : List Nat) :
    beVal (b :: l) = b * 256 ^ l.length + beVal l := by
  show (b :: l).foldl (fun a b => a * 256 + b) 0 = b * 256 ^ l.length + beVal l
  rw [List.foldl_cons, beVal_foldl]
  ring_nf

theorem beVal_toBeBytes (w n : Nat) : beVal (toBeBytes w n) = n % 256 ^ w := by
  induction w generalizing n with
  | zero => simp [toBeBytes, beVal, Nat.mod_one]
  | succ w ih =>
      rw [toBeBytes, beVal_cons, toBeBytes_length, ih]
      have h1 : n % 256 ^ (w + 1) / 256 ^ w = n / 256 ^ w % 256 := by
        rw [pow_succ]
        exact Nat.mod_mul_right_div_self n (256 ^ w) 256
      have h2 : n % 256 ^ (w + 1) % 256 ^ w = n % 256 ^ w :=
        Nat.mod_mod_of_dvd n (pow_dvd_pow 256 (Nat.le_succ w))
      have h3 := Nat.div_add_mod (n % 256 ^ (w + 1)) (256 ^ w)
      rw [h1, h2] at h3
      rw [← h3]
      ring

theorem set_difficulty_length (d : Nat) : (set_difficulty d).length = 32 := by
  rw [set_difficulty_bytes]
  simp

theorem getD_range_map (f : Nat → Nat) (n i : Nat) (hi : i < n) :
    ((List.range n).map f).getD i 0 = f i := by
  rw [List.getD_eq_getElem?_getD, List.getElem?_map, List.getElem?_range hi]
  rfl

set_option maxRecDepth 10000 in
set_option maxHeartbeats 4000000 in
theorem beVal_closed : ∀ d < 256, beVal (closedFormThreshold d) = 2 ^ (256 - d) - 1 := by
  decide

/-- Claim C1: for every leading-zero-bit count `d` in `[0, 255]`,
`set_difficulty d` is the 32-byte big-endian encoding of
`2 ^ (256 - d) - 1`; byte `i` equals `0xFF >> clamp(d - 8*i, 0, 8)`
(`Nat` subtraction realises the lower clamp), and `set_difficulty 0` is
all `0xFF` bytes. -/
theorem set_difficulty_encodes_threshold :
    (∀ d, d ≤ 255 →
      (set_difficulty d).length = 32 ∧
      beVal (set_difficulty d) = 2 ^ (256 - d) - 1 ∧
      (∀ i, i < 32 → (set_difficulty d).getD i 0 = 255 >>> min (d - 8 * i) 8)) ∧
    set_difficulty 0 = List.replicate 32 255 := by
  constructor
  · intro d hd
    have hd256 : d < 256 := by omega
    refine ⟨set_difficulty_length d, ?_, ?_⟩
    · rw [set_difficulty_eq_closedForm]
      exact beVal_closed d hd256
    · intro i hi
      rw [set_difficulty_eq_closedForm, closedFormThreshold, getD_range_map _ _ _ hi]
  · rw [set_difficulty_eq_closedForm]
    decide

/-- Witness for C1 at `d = 12`. -/
theorem set_difficulty_encodes_threshold_witness :
    beVal (set_difficulty 12) = 2 ^ (256 - 12) - 1 :=
  (set_difficulty_encodes_threshold.1 12 (by decide)).2.1

/-- Claim C2: for every `d < 256`, the source's bit-counting loop
(`set_difficulty`) and the spec's byte-wise closed form produce identical
32-byte outputs. -/
theorem set_difficulty_matches_closed_form :
    ∀ d, d < 256 → set_difficulty d = closedFormThreshold d :=
  fun d _ => set_difficulty_eq_closedForm d

/-- Witness for C2 at `d = 10`. -/
theorem set_difficulty_matches_closed_form_witness :
    set_difficulty 10 = closedFormThreshold 10 :=
  set_difficulty_matches_closed_form 10 (by decide)

/-- Claim C3: `Block::genesis()` has `index = 0`, an all-zero `hash`
field (hardcoded, independent of any hash primitive), all-zero parent and
merkle root, zero nonce and timestamp, difficulty
`set_difficulty DIFFICULTY` with `DIFFICULTY = 12`, and empty content. -/
theorem genesis_spec (Tx : Type) :
    (Block.genesis Tx).index = 0 ∧
    (Block.genesis Tx).hash = List.replicate 32 0 ∧
    (Block.genesis Tx).header.parent = List.replicate 32 0 ∧
    (Block.genesis Tx).header.nonce = 0 ∧
    (Block.genesis Tx).header.timestamp = 0 ∧
    (Block.genesis Tx).header.merkle_root = List.replicate 32 0 ∧
    (Block.genesis Tx).header.difficulty = set_difficulty DIFFICULTY ∧
    DIFFICULTY = 12 ∧
    (Block.genesis Tx).content.trans = ([] : List Tx) :=
  ⟨rfl, rfl, rfl, rfl, rfl, rfl, rfl, rfl, rfl⟩

/-- Claim C4: `Block::new(h, c)` caches `h.hash()` in the `hash` field,
sets `index = 0`, stores `h` and `c` unmodified (for arbitrary `c`, so no
merkle-root consistency is checked), and `get_hash()` returns the cached
field without recomputation. -/
theorem block_new_spec (Tx : Type) (sha256 : List Nat → List Nat)
    (h : Header) (c : Content Tx) :
    (Block.new sha256 h c).hash = Header.hash sha256 h ∧
    (Block.new sha256 h c).index = 0 ∧
    (Block.new sha256 h c).header = h ∧
    (Block.new sha256 h c).content = c ∧
    Block.get_hash (Block.new sha256 h c) = (Block.new sha256 h c).hash :=
  ⟨rfl, rfl, rfl, rfl, rfl⟩

/-- Claim C5: `Header::hash()` is the SHA-256 digest of the concatenation,
in this exact order with no padding or length prefixes, of the parent
bytes, the 4-byte big-endian nonce, the difficulty bytes, the 16-byte
big-endian timestamp, and the merkle-root bytes.  The nonce and timestamp
chunks are exactly the fixed-width big-endian encodings of the field
values (as `u32` resp. `u128`). -/
theorem header_hash_layout (sha256 : List Nat → List Nat) (h : Header) :
    ∃ nb tb : List Nat,
      nb.length = 4 ∧ (∀ x ∈ nb, x < 256) ∧ beVal nb = h.nonce % 2 ^ 32 ∧
      tb.length = 16 ∧ (∀ x ∈ tb, x < 256) ∧ beVal tb = h.timestamp % 2 ^ 128 ∧
      Header.hash sha256 h
        = sha256 (h.parent ++ nb ++ h.difficulty ++ tb ++ h.merkle_root) := by
  refine ⟨u32_to_be_bytes h.nonce, u128_to_be_bytes h.timestamp,
    toBeBytes_length 4 _, toBeBytes_lt 4 _, ?_, toBeBytes_length 16 _,
    toBeBytes_lt 16 _, ?_, rfl⟩
  · rw [u32_to_be_bytes, beVal_toBeBytes]
    norm_num
  · rw [u128_to_be_bytes, beVal_toBeBytes]
    norm_num

/-- Claim C6: `change_nonce()` sets `nonce` to `(nonce + 1) % 2 ^ 32`
(so `u32::MAX` wraps to 0 rather than erroring) and leaves parent,
difficulty, timestamp and merkle root unchanged. -/
theorem change_nonce_spec (h : Header) :
    (Header.change_nonce h).nonce = (h.nonce + 1) % 2 ^ 32 ∧
    (h.nonce = 2 ^ 32 - 1 → (Header.change_nonce h).nonce = 0) ∧
    (Header.change_nonce h).parent = h.parent ∧
    (Header.change_nonce h).difficulty = h.difficulty ∧
    (Header.change_nonce h).timestamp = h.timestamp ∧
    (Header.change_nonce h).merkle_root = h.merkle_root := by
  refine ⟨rfl, ?_, rfl, rfl, rfl, rfl⟩
  intro hm
  show (h.nonce + 1) % 2 ^ 32 = 0
  rw [hm]
  norm_num

/-- A concrete header whose nonce is `u32::MAX`. -/
def hdrMax : Header :=
  { parent := List.replicate 32 0, nonce := 2 ^ 32 - 1,
    difficulty := List.replicate 32 0, timestamp := 0,
    merkle_root := List.replicate 32 0 }

/-- Witness for C6: wraparound at `u32::MAX`. -/
theorem change_nonce_spec_witness : (Header.change_nonce hdrMax).nonce = 0 :=
  (change_nonce_spec hdrMax).2.1 rfl

/-- Claim C7: the concrete byte values of `set_difficulty` at 8, 10, 12
and 21 stated by the spec. -/
theorem set_difficulty_concrete_values :
    (set_difficulty 8).getD 0 0 = 0 ∧ (set_difficulty 8).getD 1 0 = 255 ∧
    (set_difficulty 10).getD 0 0 = 0 ∧ (set_difficulty 10).getD 1 0 = 63 ∧
    (set_difficulty 10).getD 2 0 = 255 ∧
    (set_difficulty 12).getD 0 0 = 0 ∧ (set_difficulty 12).getD 1 0 = 15 ∧
    (set_difficulty 12).getD 2 0 = 255 ∧
    (set_difficulty 21).getD 0 0 = 0 ∧ (set_difficulty 21).getD 1 0 = 0 ∧
    (set_difficulty 21).getD 2 0 = 7 := by
  decide

/-- Claim C8: `Content::new()` is the empty sequence,
`new_with_trans(S)` holds `S` in order, `add_tran(t)` appends `t` at the
end preserving the existing elements, and `merkle_root()` delegates to
the Merkle-tree collaborator over the current sequence — it is a
deterministic function of the sequence, and the empty content yields the
collaborator's empty-sequence root. -/
theorem content_spec (Tx : Type) (mkroot : List Tx → List Nat) (S : List Tx)
    (c : Content Tx) (t : Tx) :
    (Content.new Tx).trans = [] ∧
    (Content.new_with_trans S).trans = S ∧
    (Content.add_tran c t).trans = c.trans ++ [t] ∧
    Content.merkle_root mkroot c = mkroot c.trans ∧
    (∀ c2 : Content Tx, c.trans = c2.trans →
      Content.merkle_root mkroot c = Content.merkle_root mkroot c2) ∧
    Content.merkle_root mkroot (Content.new Tx) = mkroot [] :=
  ⟨rfl, rfl, rfl, rfl,
    fun c2 hc => by rw [Content.merkle_root, Content.merkle_root, hc], rfl⟩

/-- Witness for C8 with `Tx = Nat` and a length-collaborator. -/
theorem content_spec_witness :
    Content.merkle_root (fun l => [l.length]) (Content.new_with_trans [1, 2])
      = Content.merkle_root (fun l => [l.length]) (Content.new_with_trans [1, 2]) :=
  (content_spec Nat (fun l => [l.length]) [] (Content.new_with_trans [1, 2]) 0).2.2.2.2.1
    (Content.new_with_trans [1, 2]) rfl

/-- Claim C9: `Header::hash()` is a deterministic function of the five
fields only: headers that agree on parent, nonce, difficulty, timestamp
and merkle root hash identically (in particular, two invocations on the
same unmodified header agree). -/
theorem header_hash_deterministic (sha256 : List Nat → List Nat)
    (h1 h2 : Header) (hp : h1.parent = h2.parent) (hn : h1.nonce = h2.nonce)
    (hd : h1.difficulty = h2.difficulty) (ht : h1.timestamp = h2.timestamp)
    (hm : h1.merkle_root = h2.merkle_root) :
    Header.hash sha256 h1 = Header.hash sha256 h2 := by
  rw [Header.hash, Header.hash, hp, hn, hd, ht, hm]

/-- Witness for C9 at a concrete header and the identity digest. -/
theorem header_hash_deterministic_witness :
    Header.hash (fun l => l) hdrMax = Header.hash (fun l => l) hdrMax :=
  header_hash_deterministic (fun l => l) hdrMax hdrMax rfl rfl rfl rfl rfl

/-- Claim C10: `set_difficulty` is total over every input: it always
returns 32 bytes, each below 256, and for `d ≥ 256` it returns the
all-zero array (each byte is shifted once per bit position, eight times
in total, never panicking). -/
theorem set_difficulty_total (d : Nat) :
    (set_difficulty d).length = 32 ∧
    (∀ b ∈ set_difficulty d, b < 256) ∧
    (256 ≤ d → set_difficulty d = List.replicate 32 0) := by
  refine ⟨set_difficulty_length d, ?_, ?_⟩
  · rw [set_difficulty_bytes]
    intro b hb
    rw [List.mem_map] at hb
    obtain ⟨i, _, hbi⟩ := hb
    have hle : 255 / 2 ^ min (d - 8 * i) 8 ≤ 255 := Nat.div_le_self _ _
    omega
  · intro hd
    rw [set_difficulty_bytes]
    have hcongr : ∀ i ∈ List.range 32,
        255 / 2 ^ min (d - 8 * i) 8 = (fun _ => 0) i := by
      intro i hi
      rw [List.mem_range] at hi
      have hm : min (d - 8 * i) 8 = 8 := by omega
      rw [hm]
      rfl
    rw [List.map_congr_left hcongr]
    rfl

/-- Witness for C10 at `d = 300`. -/
theorem set_difficulty_total_witness : set_difficulty 300 = List.replicate 32 0 :=
  (set_difficulty_total 300).2.2 (by decide)

end BlockCore
